import Mathlib

/-!
Verification of the `labeler` inference pipeline and similarity search
against its specification.

This file shallowly embeds the Go sources:
  * `GoLabel`, `GoIssue` — the GitHub label/issue snapshots the pipeline reads;
  * the result sanitizer of `Webhook.Infer` (disabled-label map, exclusion
    regexes modelled as a predicate, nonexistent-label filter);
  * the prompt builder `aiContext.Request` (label catalogue, history messages,
    the in-place `rand.Shuffle` of the history, and the token-budget pruning
    loop with its `goto constructMsgs`);
  * the orchestration tail of `Service.Infer` (retry-on-transient loop,
    response-shape validation, tolerant tool-call argument parsing);
  * the brute-force similarity search (`bruteSearch` over stored embeddings,
    `sort.Slice` ranking, truncation) and the hand-rolled `cosineSimilarity`
    with IEEE NaN behaviour.
-/

/-! ### Basic data model -/

/-- A GitHub label as the pipeline sees it: `label.GetName()` and
`label.GetDescription()`. -/
structure GoLabel where
  name : String
  description : String
deriving DecidableEq

/-- A GitHub issue as the pipeline reads it: number, title, body, author login,
author association, creation time (Unix seconds; `GetCreatedAt().Time`), and
the names of its labels. -/
structure GoIssue where
  number : Int
  title : String
  body : String
  author : String
  authorAssoc : String
  createdAt : Int
  labels : List String
deriving DecidableEq

/-- Go `strings.Contains(s, pat)`: some contiguous substring of `s` equals `pat`. -/
def strContains (s pat : String) : Bool :=
  s.toList.tails.any (fun t => pat.toList.isPrefixOf t)

/-- The sentinel phrase in a label description that forbids automatic
application (`magicDisableString` in the source). -/
def magicDisableString : String := "Only humans may set this"

/-! ### Result sanitizer (`Webhook.Infer`, tail)

The exclusion regexes of `.github/labeler.yml` are modelled by a predicate
`exclude : String → Bool` that holds exactly when some configured regex
matches the label name. -/

/-- The `repoConfig.checkLabel` method: a label passes iff no exclusion regex matches. -/
def checkLabel (exclude : String → Bool) (label : String) : Bool :=
  !(exclude label)

/-- Membership in the `disabledLabels` map built by `Webhook.Infer`: some repo
label has this name and either its description contains the sentinel phrase or
the repo config excludes it. -/
def webhookDisabled (exclude : String → Bool) (repoLabels : List GoLabel)
    (name : String) : Bool :=
  repoLabels.any (fun l =>
    l.name == name &&
      (strContains l.description magicDisableString || !(checkLabel exclude l.name)))

/-- Membership in the `repoLabelsMap` of `Webhook.Infer`. -/
def repoHasLabel (repoLabels : List GoLabel) (name : String) : Bool :=
  repoLabels.any (fun l => l.name == name)

/-- The sanitization of `Webhook.Infer`: first drop disabled labels, then drop
labels that do not exist in the repository (each step a `filterSlice`). -/
def webhookSanitize (exclude : String → Bool) (repoLabels : List GoLabel)
    (raw : List String) : List String :=
  ((raw.filter (fun label => !(webhookDisabled exclude repoLabels label))).filter
    (fun label => repoHasLabel repoLabels label))

theorem webhookSanitize_eq_filter (exclude : String → Bool)
    (repoLabels : List GoLabel) (raw : List String) :
    webhookSanitize exclude repoLabels raw =
      raw.filter (fun label =>
        !(webhookDisabled exclude repoLabels label) && repoHasLabel repoLabels label) := by
  rw [webhookSanitize, List.filter_filter]
  congr 1
  funext a
  exact Bool.and_comm _ _

/-- C1: For every raw label list, repository label list and exclusion set,
the sanitizer's output is a subset of the repository's label names, disjoint
from the disabled set, equal to a single order-preserving filter of the input
(no duplicates introduced or removed beyond the two filters), and a name
absent from the repository is never counted as disabled. -/
theorem c1_sanitizer_invariants (exclude : String → Bool)
    (repoLabels : List GoLabel) (raw : List String) :
    (∀ l ∈ webhookSanitize exclude repoLabels raw, repoHasLabel repoLabels l = true) ∧
    (∀ l ∈ webhookSanitize exclude repoLabels raw,
      webhookDisabled exclude repoLabels l = false) ∧
    webhookSanitize exclude repoLabels raw =
      raw.filter (fun label =>
        !(webhookDisabled exclude repoLabels label) && repoHasLabel repoLabels label) ∧
    (∀ name, repoHasLabel repoLabels name = false →
      webhookDisabled exclude repoLabels name = false) := by
  refine ⟨?_, ?_, webhookSanitize_eq_filter exclude repoLabels raw, ?_⟩
  · intro l hl
    exact (List.mem_filter.mp hl).2
  · intro l hl
    have h1 := (List.mem_filter.mp (List.mem_of_mem_filter hl)).2
    simpa using h1
  · intro name hname
    by_contra h
    have h' : webhookDisabled exclude repoLabels name = true := by
      cases hd : webhookDisabled exclude repoLabels name with
      | false => exact absurd hd h
      | true => rfl
    rcases List.any_eq_true.mp h' with ⟨l, hl, hcond⟩
    simp only [Bool.and_eq_true] at hcond
    have hn : l.name == name := hcond.1
    have : repoHasLabel repoLabels name = true :=
      List.any_eq_true.mpr ⟨l, hl, hn⟩
    rw [hname] at this
    exact Bool.false_ne_true this

/-- Witness for C1 at Scenario A/B style data: `roadmap` is sentinel-disabled,
`typo` does not exist; the model returned all three. -/
theorem c1_sanitizer_invariants_witness :
    webhookDisabled (fun _ => false)
      [⟨"bug", "a bug"⟩, ⟨"roadmap", "Only humans may set this label"⟩] "typo" = false ∧
    webhookSanitize (fun _ => false)
      [⟨"bug", "a bug"⟩, ⟨"roadmap", "Only humans may set this label"⟩]
      ["bug", "roadmap", "typo"] = ["bug"] := by
  constructor
  · exact (c1_sanitizer_invariants (fun _ => false)
      [⟨"bug", "a bug"⟩, ⟨"roadmap", "Only humans may set this label"⟩]
      ["bug", "roadmap", "typo"]).2.2.2 "typo" (by decide)
  · decide

/-! ### Context builder (`aiContext.Request`)

A chat message is modelled by its role together with the data the source
serializes into it; the exact rendered text (`issueToText`, produced with the
external `prefixsuffix` truncation) is irrelevant to the claims, so each
message carries the issue, or the argument labels of the few-shot tool call,
it is rendered from. -/

/-- One message of the prompt. -/
inductive ChatMsg
  /-- The system message: instructions plus the label catalogue text. -/
  | system (content : String)
  /-- A user message rendered with `issueToText` (history example or target). -/
  | userIssue (issue : GoIssue)
  /-- The assistant few-shot `setLabels` tool call carrying the example's
  label names as arguments. -/
  | assistantSetLabels (labels : List String)
  /-- The `"OK"` tool-role acknowledgement message. -/
  | toolOk
deriving DecidableEq

/-- The `labelsDescription` string builder: every label name and description,
newline-delimited. -/
def labelsDescriptionOf (labels : List GoLabel) : String :=
  labels.foldl (fun s l => s ++ l.name ++ ": " ++ l.description ++ "\n") ""

/-- The `constructMsgs` block: system message, then for each history issue a user
message, an assistant `setLabels` tool call with the issue's label names, and
the `"OK"` tool message; finally the target issue as a user message. -/
def buildMsgs (desc : String) (hist : List GoIssue) (target : GoIssue) :
    List ChatMsg :=
  ChatMsg.system desc ::
    (hist.flatMap (fun issue =>
      [ChatMsg.userIssue issue, ChatMsg.assistantSetLabels issue.labels,
        ChatMsg.toolOk])) ++
    [ChatMsg.userIssue target]

/-- The `modelTokenLimit` switch of `aiContext.Request`. -/
def modelTokenLimit (model : String) : Nat :=
  if model == "gpt-3.5-turbo" || model == "gpt-3.5-turbo-16k" then 16385
  else if model == "gpt-4-turbo-preview" then 128000
  else 128000

/-- The pruning loop of `aiContext.Request`: build the messages; while the
token count (`tok` models `countTokens` with the cl100k tokenizer) exceeds the
limit and more than one history issue remains, truncate the history to its
first `⌊n/2⌋` entries (`c.lastIssues = c.lastIssues[:len(c.lastIssues)/2]`)
and rebuild. Returns the final messages and the final history. -/
def requestLoop (tok : List ChatMsg → Nat) (limit : Nat) (desc : String)
    (target : GoIssue) (hist : List GoIssue) : List ChatMsg × List GoIssue :=
  let msgs := buildMsgs desc hist target
  if h : tok msgs > limit ∧ 1 < hist.length then
    requestLoop tok limit desc target (hist.take (hist.length / 2))
  else (msgs, hist)
termination_by hist.length
decreasing_by simp only [List.length_take]; omega

/-- The number of rebuilds (`goto constructMsgs` jumps) the pruning loop
performs. -/
def requestRebuilds (tok : List ChatMsg → Nat) (limit : Nat) (desc : String)
    (target : GoIssue) (hist : List GoIssue) : Nat :=
  if h : tok (buildMsgs desc hist target) > limit ∧ 1 < hist.length then
    requestRebuilds tok limit desc target (hist.take (hist.length / 2)) + 1
  else 0
termination_by hist.length
decreasing_by simp only [List.length_take]; omega

/-- Modelled from the spec: the pruning loop as the claim words it, discarding
the **oldest** `⌊n/2⌋` history issues (the front of the ascending-sorted list)
on each over-budget rebuild. Stated only for comparison with `requestLoop`. -/
def specPruneLoop (tok : List ChatMsg → Nat) (limit : Nat) (desc : String)
    (target : GoIssue) (hist : List GoIssue) : List ChatMsg × List GoIssue :=
  let msgs := buildMsgs desc hist target
  if h : tok msgs > limit ∧ 1 < hist.length then
    specPruneLoop tok limit desc target (hist.drop (hist.length / 2))
  else (msgs, hist)
termination_by hist.length
decreasing_by simp only [List.length_drop]; omega

/-- Some concrete issues used by concrete evaluations below; `issueOld`
precedes `issueNew` by creation time, `issueTarget` is the issue being
labeled. -/
def issueOld : GoIssue :=
  { number := 1, title := "old", body := "", author := "u", authorAssoc := "NONE",
    createdAt := 100, labels := ["bug"] }

def issueNew : GoIssue :=
  { number := 2, title := "new", body := "", author := "v", authorAssoc := "NONE",
    createdAt := 200, labels := ["feature"] }

def issueTarget : GoIssue :=
  { number := 3, title := "target", body := "", author := "w", authorAssoc := "NONE",
    createdAt := 300, labels := [] }

theorem requestLoop_pos (tok : List ChatMsg → Nat) (limit : Nat) (desc : String)
    (target : GoIssue) (hist : List GoIssue)
    (h : tok (buildMsgs desc hist target) > limit ∧ 1 < hist.length) :
    requestLoop tok limit desc target hist =
      requestLoop tok limit desc target (hist.take (hist.length / 2)) := by
  rw [requestLoop]
  simp [h]

theorem requestLoop_neg (tok : List ChatMsg → Nat) (limit : Nat) (desc : String)
    (target : GoIssue) (hist : List GoIssue)
    (h : ¬(tok (buildMsgs desc hist target) > limit ∧ 1 < hist.length)) :
    requestLoop tok limit desc target hist = (buildMsgs desc hist target, hist) := by
  rw [requestLoop]
  simp only [dif_neg h]

theorem requestLoop_postcondition (tok : List ChatMsg → Nat) (limit : Nat)
    (desc : String) (target : GoIssue) : ∀ hist : List GoIssue,
    (requestLoop tok limit desc target hist).1 =
      buildMsgs desc (requestLoop tok limit desc target hist).2 target ∧
    (requestLoop tok limit desc target hist).2 <+: hist ∧
    (tok (requestLoop tok limit desc target hist).1 ≤ limit ∨
      (requestLoop tok limit desc target hist).2.length ≤ 1) := by
  have main : ∀ n : Nat, ∀ hist : List GoIssue, hist.length = n →
      (requestLoop tok limit desc target hist).1 =
        buildMsgs desc (requestLoop tok limit desc target hist).2 target ∧
      (requestLoop tok limit desc target hist).2 <+: hist ∧
      (tok (requestLoop tok limit desc target hist).1 ≤ limit ∨
        (requestLoop tok limit desc target hist).2.length ≤ 1) := by
    intro n
    induction n using Nat.strong_induction_on with
    | _ n ih =>
      intro hist hlen
      by_cases h : tok (buildMsgs desc hist target) > limit ∧ 1 < hist.length
      · rw [requestLoop_pos tok limit desc target hist h]
        have hlt : (hist.take (hist.length / 2)).length < n := by
          simp only [List.length_take]
          omega
        obtain ⟨h1, h2, h3⟩ :=
          ih (hist.take (hist.length / 2)).length hlt (hist.take (hist.length / 2)) rfl
        exact ⟨h1, h2.trans ( List.take_prefix _ _), h3⟩
      · rw [requestLoop_neg tok limit desc target hist h]
        refine ⟨rfl, List.prefix_refl hist, ?_⟩
        dsimp only
        omega
  intro hist
  exact main hist.length hist rfl

/-- C2 (amended): Whenever the assembled prompt exceeds the token ceiling
and more than one history issue remains, the builder keeps the **first**
`⌊n/2⌋` history issues — under the callers' ascending sort these are the
*oldest*; it is the newest half that is discarded — and rebuilds, repeating
until the prompt is within budget or at most one history issue remains, in
which case it proceeds regardless; the final history is a prefix of the
initial one. -/
theorem c2_prune_keeps_oldest_half (tok : List ChatMsg → Nat) (limit : Nat)
    (desc : String) (target : GoIssue) (hist : List GoIssue) :
    (tok (buildMsgs desc hist target) > limit → 1 < hist.length →
      requestLoop tok limit desc target hist =
        requestLoop tok limit desc target (hist.take (hist.length / 2))) ∧
    (requestLoop tok limit desc target hist).1 =
      buildMsgs desc (requestLoop tok limit desc target hist).2 target ∧
    (requestLoop tok limit desc target hist).2 <+: hist ∧
    (tok (requestLoop tok limit desc target hist).1 ≤ limit ∨
      (requestLoop tok limit desc target hist).2.length ≤ 1) := by
  refine ⟨fun h1 h2 => requestLoop_pos tok limit desc target hist ⟨h1, h2⟩,
    requestLoop_postcondition tok limit desc target hist⟩

theorem requestRebuilds_pos (tok : List ChatMsg → Nat) (limit : Nat)
    (desc : String) (target : GoIssue) (hist : List GoIssue)
    (h : tok (buildMsgs desc hist target) > limit ∧ 1 < hist.length) :
    requestRebuilds tok limit desc target hist =
      requestRebuilds tok limit desc target (hist.take (hist.length / 2)) + 1 := by
  rw [requestRebuilds]
  simp [h]

theorem requestRebuilds_neg (tok : List ChatMsg → Nat) (limit : Nat)
    (desc : String) (target : GoIssue) (hist : List GoIssue)
    (h : ¬(tok (buildMsgs desc hist target) > limit ∧ 1 < hist.length)) :
    requestRebuilds tok limit desc target hist = 0 := by
  rw [requestRebuilds]
  simp only [dif_neg h]

theorem clog_two_halve {n : Nat} (h : 2 ≤ n) :
    Nat.clog 2 (n / 2) + 1 ≤ Nat.clog 2 n := by
  rw [Nat.clog_of_two_le (by norm_num) h]
  have : n / 2 ≤ (n + 2 - 1) / 2 := Nat.div_le_div_right (by omega)
  exact Nat.add_le_add_right (Nat.clog_mono_right 2 this) 1

/-- C3: For any history and any token-count function, the pruning loop
performs at most `⌈log₂ n⌉` rebuilds, and while more than one history issue
remains each pruning step strictly shrinks the history (its length becomes
`⌊n/2⌋`). -/
theorem c3_prune_terminates_log (tok : List ChatMsg → Nat) (limit : Nat)
    (desc : String) (target : GoIssue) (hist : List GoIssue) :
    requestRebuilds tok limit desc target hist ≤ Nat.clog 2 hist.length ∧
    (1 < hist.length → (hist.take (hist.length / 2)).length < hist.length) := by
  constructor
  · have main : ∀ n : Nat, ∀ hist : List GoIssue, hist.length = n →
        requestRebuilds tok limit desc target hist ≤ Nat.clog 2 hist.length := by
      intro n
      induction n using Nat.strong_induction_on with
      | _ n ih =>
        intro hist hlen
        by_cases h : tok (buildMsgs desc hist target) > limit ∧ 1 < hist.length
        · rw [requestRebuilds_pos tok limit desc target hist h]
          have hlt : (hist.take (hist.length / 2)).length < n := by
            simp only [List.length_take]
            omega
          have hrec :=
            ih (hist.take (hist.length / 2)).length hlt
              (hist.take (hist.length / 2)) rfl
          have hstep : Nat.clog 2 ((hist.take (hist.length / 2)).length) + 1 ≤
              Nat.clog 2 hist.length := by
            have : (hist.take (hist.length / 2)).length = hist.length / 2 := by
              simp only [List.length_take]
              omega
            rw [this]
            exact clog_two_halve (by omega)
          omega
        · rw [requestRebuilds_neg tok limit desc target hist h]
          exact Nat.zero_le _
    exact main hist.length hist rfl
  · intro h
    simp only [List.length_take]
    omega

/-- Witness for C3: twenty over-budget history issues are pruned in five
rebuilds (20 → 10 → 5 → 2 → 1), within the `⌈log₂ 20⌉ = 5` bound, and one
pruning step at length 20 shrinks the history. -/
theorem c3_prune_terminates_log_witness :
    requestRebuilds (fun _ => 1) 0 "" issueTarget
        (List.replicate 20 issueTarget) ≤ Nat.clog 2 20 ∧
    ((List.replicate 20 issueTarget).take 10).length < 20 := by
  have h := c3_prune_terminates_log (fun _ => 1) 0 "" issueTarget
    (List.replicate 20 issueTarget)
  constructor
  · have h1 := h.1
    simpa using h1
  · have h2 := h.2 (by simp)
    simp only [List.length_replicate] at h2
    exact h2

/-! ### The in-place history shuffle (`rand.Shuffle`)

`aiContext.Request` shuffles `c.lastIssues` in place before building the
messages. `rand.Shuffle(n, swap)` performs a Fisher–Yates pass
`for i := n-1; i > 0; i-- { j := rand(i+1); swap(i, j) }`; the random draws
are modelled by `rand : Nat → Nat`, reduced mod `i+1` to stay in range. -/

/-- The in-place swap of positions `i` and `j` (identity out of bounds, which
`rand.Shuffle` never produces). -/
def listSwap {α : Type _} (xs : List α) (i j : Nat) : List α :=
  if h : i < xs.length ∧ j < xs.length then
    (xs.set i (xs.get ⟨j, h.2⟩)).set j (xs.get ⟨i, h.1⟩)
  else xs

theorem head_swap_perm {α : Type _} : ∀ (t : List α) (k : Nat) (hk : k < t.length)
    (x : α), (t.get ⟨k, hk⟩ :: t.set k x).Perm (x :: t)
  | a :: s, 0, _, x => List.Perm.swap x a s
  | a :: s, m + 1, hk, x => by
      have hm : m < s.length := by simpa using hk
      have ih := head_swap_perm s m hm x
      have s1 : (s.get ⟨m, hm⟩ :: a :: s.set m x).Perm
          (a :: s.get ⟨m, hm⟩ :: s.set m x) :=
        List.Perm.swap a (s.get ⟨m, hm⟩) (s.set m x)
      have s2 : (a :: s.get ⟨m, hm⟩ :: s.set m x).Perm (a :: x :: s) := ih.cons a
      have s3 : (a :: x :: s).Perm (x :: a :: s) := List.Perm.swap x a s
      exact (s1.trans s2).trans s3

theorem set_swap_perm {α : Type _} : ∀ (xs : List α) (i j : Nat)
    (hi : i < xs.length) (hj : j < xs.length),
    ((xs.set i (xs.get ⟨j, hj⟩)).set j (xs.get ⟨i, hi⟩)).Perm xs
  | a :: t, 0, 0, _, _ => by simp
  | a :: t, 0, k + 1, _, hj => by
      simpa using head_swap_perm t k (by simpa using hj) a
  | a :: t, m + 1, 0, hi, _ => by
      simpa using head_swap_perm t m (by simpa using hi) a
  | a :: t, m + 1, k + 1, hi, hj => by
      simpa using
        (set_swap_perm t m k (by simpa using hi) (by simpa using hj)).cons a

theorem listSwap_perm {α : Type _} (xs : List α) (i j : Nat) :
    (listSwap xs i j).Perm xs := by
  unfold listSwap
  split
  · next h => exact set_swap_perm xs i j h.1 h.2
  · exact List.Perm.refl xs

/-- The Fisher–Yates pass of `rand.Shuffle`, counting `i` down from `n-1`. -/
def shuffleFY {α : Type _} (rand : Nat → Nat) : Nat → List α → List α
  | 0, xs => xs
  | i + 1, xs => shuffleFY rand i (listSwap xs (i + 1) (rand (i + 1) % (i + 2)))

/-- Go `rand.Shuffle(len(xs), swap)` as called on `c.lastIssues`. -/
def shuffleGo {α : Type _} (rand : Nat → Nat) (xs : List α) : List α :=
  shuffleFY rand (xs.length - 1) xs

theorem shuffleFY_perm {α : Type _} (rand : Nat → Nat) :
    ∀ (k : Nat) (xs : List α), (shuffleFY rand k xs).Perm xs
  | 0, xs => List.Perm.refl xs
  | k + 1, xs =>
      (shuffleFY_perm rand k (listSwap xs (k + 1) (rand (k + 1) % (k + 2)))).trans
        (listSwap_perm xs (k + 1) (rand (k + 1) % (k + 2)))

theorem shuffleGo_perm {α : Type _} (rand : Nat → Nat) (xs : List α) :
    (shuffleGo rand xs).Perm xs :=
  shuffleFY_perm rand (xs.length - 1) xs

/-! ### History selection (`Service.Infer` steps) and the full builder -/

/-- In `Service.Infer`: drop the target issue from the fetched issues by number
equality (`filterIssues`), then sort ascending by creation time
(`sort.Slice` with `iTime.Before(jTime)`, modelled by a sort into
non-decreasing `createdAt` order). -/
def prepareHistory (issues : List GoIssue) (target : GoIssue) : List GoIssue :=
  (issues.filter (fun i => i.number != target.number)).mergeSort
    (fun a b => decide (a.createdAt ≤ b.createdAt))

/-- The issues serialized as user messages, in prompt order (history issues
followed by the target issue). -/
def promptHistory (msgs : List ChatMsg) : List GoIssue :=
  msgs.filterMap (fun m =>
    match m with
    | ChatMsg.userIssue i => some i
    | _ => none)

theorem promptHistory_historyChunk : ∀ h : List GoIssue,
    (h.flatMap (fun issue =>
      [ChatMsg.userIssue issue, ChatMsg.assistantSetLabels issue.labels,
        ChatMsg.toolOk])).filterMap (fun m =>
          match m with
          | ChatMsg.userIssue i => some i
          | _ => none) = h
  | [] => rfl
  | i :: h => by
      simp only [List.flatMap_cons, List.filterMap_append]
      rw [promptHistory_historyChunk h]
      rfl

theorem promptHistory_buildMsgs (desc : String) (h : List GoIssue)
    (t : GoIssue) : promptHistory (buildMsgs desc h t) = h ++ [t] := by
  simp only [promptHistory, buildMsgs, List.filterMap_append]
  rw [List.filterMap_cons]
  simp only [promptHistory_historyChunk h]
  rfl

theorem getLast?_buildMsgs (desc : String) (h : List GoIssue) (t : GoIssue) :
    (buildMsgs desc h t).getLast? = some (ChatMsg.userIssue t) := by
  rw [buildMsgs, List.getLast?_concat]

theorem prepareHistory_sorted (issues : List GoIssue) (target : GoIssue) :
    (prepareHistory issues target).Pairwise
      (fun a b => a.createdAt ≤ b.createdAt) := by
  have h := @List.sorted_mergeSort GoIssue
    (fun a b : GoIssue => decide (a.createdAt ≤ b.createdAt))
    (fun a b c hab hbc => by
      simp only [decide_eq_true_eq] at *
      omega)
    (fun a b => by
      simp only [Bool.or_eq_true, decide_eq_true_eq]
      omega)
    (issues.filter (fun i => i.number != target.number))
  exact h.imp (fun hab => by simpa using hab)

theorem prepareHistory_mem (issues : List GoIssue) (target : GoIssue) :
    ∀ i, i ∈ prepareHistory issues target ↔
      i ∈ issues ∧ i.number ≠ target.number := by
  intro i
  rw [prepareHistory, (List.mergeSort_perm _ _).mem_iff, List.mem_filter]
  simp

/-- C7 (amended): For every Infer call, the history issues are exactly the
fetched issues with the target removed by number equality, sorted ascending by
creation time *before* prompt construction; the builder then shuffles them in
place, so the prompt serializes them in the shuffled order — a permutation of
the ascending history, possibly pruned to a prefix — not necessarily
ascending, and the target issue is the last message. -/
theorem c7_history_selection_order (issues : List GoIssue) (target : GoIssue)
    (rand : Nat → Nat) (tok : List ChatMsg → Nat) (limit : Nat) (desc : String) :
    (prepareHistory issues target).Pairwise
      (fun a b => a.createdAt ≤ b.createdAt) ∧
    (∀ i, i ∈ prepareHistory issues target ↔
      i ∈ issues ∧ i.number ≠ target.number) ∧
    (shuffleGo rand (prepareHistory issues target)).Perm
      (prepareHistory issues target) ∧
    promptHistory
        (requestLoop tok limit desc target
          (shuffleGo rand (prepareHistory issues target))).1 =
      (requestLoop tok limit desc target
        (shuffleGo rand (prepareHistory issues target))).2 ++ [target] ∧
    (requestLoop tok limit desc target
        (shuffleGo rand (prepareHistory issues target))).2 <+:
      shuffleGo rand (prepareHistory issues target) ∧
    (requestLoop tok limit desc target
        (shuffleGo rand (prepareHistory issues target))).1.getLast? =
      some (ChatMsg.userIssue target) := by
  obtain ⟨h1, h2, _⟩ := requestLoop_postcondition tok limit desc target
    (shuffleGo rand (prepareHistory issues target))
  refine ⟨prepareHistory_sorted issues target, prepareHistory_mem issues target,
    shuffleGo_perm rand _, ?_, h2, ?_⟩
  · rw [h1, promptHistory_buildMsgs]
  · rw [h1, getLast?_buildMsgs]

/-- C7 (counterexample): With history `[issueOld, issueNew]` (ascending
after the service sort) and a shuffle draw that swaps the two, the prompt
serializes `issueNew` before `issueOld` — creation times 200 then 100 — so the
history does not appear in ascending creation order. -/
theorem c7_counterexample :
    prepareHistory [issueOld, issueNew] issueTarget = [issueOld, issueNew] ∧
    shuffleGo (fun _ => 0) [issueOld, issueNew] = [issueNew, issueOld] ∧
    promptHistory (requestLoop (fun _ => 0) 1000 "" issueTarget
        (shuffleGo (fun _ => 0)
          (prepareHistory [issueOld, issueNew] issueTarget))).1 =
      [issueNew, issueOld, issueTarget] ∧
    ¬(issueNew.createdAt ≤ issueOld.createdAt) := by
  have h1 : prepareHistory [issueOld, issueNew] issueTarget =
      [issueOld, issueNew] := by
    rw [prepareHistory]
    exact List.mergeSort_of_sorted (by decide)
  have h2 : shuffleGo (fun _ => 0) [issueOld, issueNew] =
      [issueNew, issueOld] := by decide
  refine ⟨h1, h2, ?_, by decide⟩
  rw [h1, h2, requestLoop_neg (fun _ => 0) 1000 "" issueTarget
    [issueNew, issueOld] (by norm_num)]
  rw [promptHistory_buildMsgs]
  rfl

/-- Witness for C7 (amended) at concrete inputs: the prompt's user messages
are the final history followed by the target. -/
theorem c7_history_selection_order_witness :
    promptHistory (requestLoop (fun _ => 0) 1000 "" issueTarget
        (shuffleGo (fun _ => 0)
          (prepareHistory [issueOld, issueNew] issueTarget))).1 =
      (requestLoop (fun _ => 0) 1000 "" issueTarget
        (shuffleGo (fun _ => 0)
          (prepareHistory [issueOld, issueNew] issueTarget))).2 ++ [issueTarget] :=
  (c7_history_selection_order [issueOld, issueNew] issueTarget (fun _ => 0)
    (fun _ => 0) 1000 "").2.2.2.1

/-! ### The builder's state effect (`aiContext` fields and the caller's slice) -/

/-- The `aiContext` receiver of `Request`. -/
structure AiCtx where
  allLabels : List GoLabel
  lastIssues : List GoIssue
  targetIssue : GoIssue
deriving DecidableEq

/-- What a call to `aiContext.Request` produces and leaves behind: the final
messages, the receiver afterwards (its `lastIssues` field holds the pruned
prefix), and the caller's view of the history slice it passed in —
`rand.Shuffle` permutes the shared backing array in place, while the pruning
reassignment only shortens the receiver's own slice header. -/
structure RequestEffect where
  msgs : List ChatMsg
  ctxAfter : AiCtx
  callerIssues : List GoIssue
deriving DecidableEq

/-- In `Webhook.Infer`: `if req.TestMode { targetIssue.Labels = nil }`. -/
def stripIfTestMode (testMode : Bool) (issue : GoIssue) : GoIssue :=
  if testMode then { issue with labels := [] } else issue

/-- The call `aiContext.Request(model)` as a state transformer: build the label
catalogue, shuffle the history in place, run the pruning loop against the
model's token ceiling. -/
def aiRequest (rand : Nat → Nat) (tok : List ChatMsg → Nat) (model : String)
    (c : AiCtx) : RequestEffect :=
  let desc := labelsDescriptionOf c.allLabels
  let shuffled := shuffleGo rand c.lastIssues
  let r := requestLoop tok (modelTokenLimit model) desc c.targetIssue shuffled
  { msgs := r.1,
    ctxAfter :=
      { allLabels := c.allLabels, lastIssues := r.2, targetIssue := c.targetIssue },
    callerIssues := shuffled }

/-- C9 (amended): Building the prompt leaves the label data and the target
issue unchanged and neither adds, removes nor modifies any history issue, but
it *does* permute the caller's history list in place (the random shuffle), so
the order of its elements can change; the only content mutation is the
caller-controlled test-mode toggle, which clears exactly the target's label
list before prompt construction. -/
theorem c9_builder_frame (rand : Nat → Nat) (tok : List ChatMsg → Nat)
    (model : String) (c : AiCtx) :
    (aiRequest rand tok model c).ctxAfter.allLabels = c.allLabels ∧
    (aiRequest rand tok model c).ctxAfter.targetIssue = c.targetIssue ∧
    (aiRequest rand tok model c).callerIssues.Perm c.lastIssues ∧
    (aiRequest rand tok model c).ctxAfter.lastIssues <+:
      (aiRequest rand tok model c).callerIssues ∧
    (∀ issue : GoIssue, stripIfTestMode false issue = issue) ∧
    (∀ issue : GoIssue,
      (stripIfTestMode true issue).labels = [] ∧
      (stripIfTestMode true issue).number = issue.number ∧
      (stripIfTestMode true issue).title = issue.title ∧
      (stripIfTestMode true issue).body = issue.body ∧
      (stripIfTestMode true issue).author = issue.author ∧
      (stripIfTestMode true issue).createdAt = issue.createdAt) := by
  refine ⟨rfl, rfl, shuffleGo_perm rand c.lastIssues, ?_, ?_, ?_⟩
  · exact (requestLoop_postcondition tok (modelTokenLimit model)
      (labelsDescriptionOf c.allLabels) c.targetIssue
      (shuffleGo rand c.lastIssues)).2.1
  · intro issue
    rfl
  · intro issue
    exact ⟨rfl, rfl, rfl, rfl, rfl, rfl⟩

/-- C9 (counterexample): A shuffle draw that swaps the two history issues
leaves the caller's slice reordered after `Request` returns: the builder does
mutate the caller's history-issue list order. -/
theorem c9_counterexample :
    (aiRequest (fun _ => 0) (fun _ => 0) "gpt-4-turbo-preview"
        { allLabels := [], lastIssues := [issueOld, issueNew],
          targetIssue := issueTarget }).callerIssues = [issueNew, issueOld] ∧
    ([issueNew, issueOld] : List GoIssue) ≠ [issueOld, issueNew] := by
  constructor
  · decide
  · decide

/-- Witness for C9 (amended) at a concrete context: the caller's slice after
the call is a permutation of the history it passed in. -/
theorem c9_builder_frame_witness :
    (aiRequest (fun _ => 0) (fun _ => 0) "gpt-4-turbo-preview"
        { allLabels := [], lastIssues := [issueOld, issueNew],
          targetIssue := issueTarget }).callerIssues.Perm
      [issueOld, issueNew] :=
  (c9_builder_frame (fun _ => 0) (fun _ => 0) "gpt-4-turbo-preview"
    { allLabels := [], lastIssues := [issueOld, issueNew],
      targetIssue := issueTarget }).2.2.1

/-- C2 (counterexample): With the ascending history `[issueOld, issueNew]`
and every prompt over budget, the source loop ends with `[issueOld]` — it kept
the oldest issue and discarded the newest — while a loop that discarded the
oldest half, as the claim states, would end with `[issueNew]`. -/
theorem c2_counterexample :
    (requestLoop (fun _ => 1) 0 "" issueTarget [issueOld, issueNew]).2 = [issueOld] ∧
    (specPruneLoop (fun _ => 1) 0 "" issueTarget [issueOld, issueNew]).2 = [issueNew] ∧
    ([issueOld] : List GoIssue) ≠ [issueNew] := by
  refine ⟨?_, ?_, by decide⟩
  · rw [requestLoop]
    norm_num
    rw [requestLoop]
    norm_num
  · rw [specPruneLoop]
    norm_num
    rw [specPruneLoop]
    norm_num

/-- Witness for C2 (amended): a concrete over-budget run takes the
keep-first-half step and its result satisfies the stop condition. -/
theorem c2_prune_keeps_oldest_half_witness :
    requestLoop (fun _ => 1) 0 "" issueTarget [issueOld, issueNew] =
      requestLoop (fun _ => 1) 0 "" issueTarget
        ([issueOld, issueNew].take ([issueOld, issueNew].length / 2)) ∧
    ((requestLoop (fun _ => 1) 0 "" issueTarget [issueOld, issueNew]).2.length ≤ 1 ∨
      (1 : Nat) ≤ 0) :=
  ⟨(c2_prune_keeps_oldest_half (fun _ => 1) 0 "" issueTarget
      [issueOld, issueNew]).1 (by decide) (by decide),
    Or.inl (by
      have h :=
        (c2_prune_keeps_oldest_half (fun _ => 1) 0 "" issueTarget
          [issueOld, issueNew]).2.2.2
      omega)⟩

/-! ### Orchestration tail of `Service.Infer`

The completion provider's tool-call `Function.Arguments` is a JSON text;
`json.Unmarshal` first decodes it. A decoded payload is modelled as a `JVal`
tree, and a syntactically invalid payload as `none`. -/

/-- A decoded JSON value (numbers and booleans are irrelevant to the claims
and collapse into `jother`). -/
inductive JVal
  | jstr (s : String)
  | jarr (xs : List JVal)
  | jobj (fields : List (String × JVal))
  | jnull
  | jother

/-- Field lookup of the `labels` key in a decoded object. -/
def jlookup (fields : List (String × JVal)) (key : String) : Option JVal :=
  (fields.find? (fun f => f.1 == key)).map (fun f => f.2)

/-- Decoding a JSON value into a Go `[]string`: an array of strings, or
`null` (which leaves the slice nil). -/
def decodeStringList : JVal → Option (List String)
  | JVal.jarr xs =>
    xs.mapM (fun v =>
      match v with
      | JVal.jstr s => some s
      | _ => none)
  | JVal.jnull => some []
  | _ => none

/-- Go `json.Unmarshal` into `struct{ Labels []string }`: the payload must be an
object (or `null`); an absent `labels` field leaves the slice nil; a present
one must decode as a string list. -/
def unmarshalLabelsList : JVal → Option (List String)
  | JVal.jobj fields =>
    match jlookup fields "labels" with
    | none => some []
    | some v => decodeStringList v
  | JVal.jnull => some []
  | _ => none

/-- Go `json.Unmarshal` into `struct{ Labels string }`: the `labels` field, when
present, must be a string (or `null`). -/
def unmarshalLabelsString : JVal → Option String
  | JVal.jobj fields =>
    match jlookup fields "labels" with
    | none => some ""
    | some (JVal.jstr s) => some s
    | some JVal.jnull => some ""
    | some _ => none
  | JVal.jnull => some ""
  | _ => none

/-- The label-parsing step of `Service.Infer`: unmarshal into the list-typed
struct; on error, try the string-typed struct, and if that also fails return
the joined error. When the string-typed unmarshal succeeds the source falls
through **without using the decoded string**, so `setLabels.Labels` stays nil. -/
def parseToolCallLabels : Option JVal → Option (List String)
  | none => none
  | some j =>
    match unmarshalLabelsList j with
    | some ls => some ls
    | none =>
      match unmarshalLabelsString j with
      | some _ => some []
      | none => none

/-- Membership in the `disabledLabels` map of `Service.Infer` (sentinel phrase
only; this older path has no repo-config exclusions). -/
def serviceDisabled (repoLabels : List GoLabel) (name : String) : Bool :=
  repoLabels.any (fun l =>
    l.name == name && strContains l.description magicDisableString)

/-- One completion choice: the argument payloads of its tool calls. -/
structure GoChoice where
  toolCalls : List (Option JVal)

/-- A successful completion response: its choices and `Usage.TotalTokens`. -/
structure GoResponse where
  choices : List GoChoice
  totalTokens : Nat

/-- Outcome of one `Service.Infer` invocation past the provider call. -/
inductive InferOut
  | ok (setLabels : List String) (tokensUsed : Nat)
  | errExpectedOneChoice
  | errExpectedOneToolCall
  | errUnmarshal
  | errProvider
deriving DecidableEq

/-- The response handling of `Service.Infer`: exactly one choice, exactly one
tool call, parse the labels, filter the disabled ones, return the response. -/
def handleResponse (repoLabels : List GoLabel) (resp : GoResponse) : InferOut :=
  match resp.choices with
  | [choice] =>
    match choice.toolCalls with
    | [args] =>
      match parseToolCallLabels args with
      | none => InferOut.errUnmarshal
      | some raw =>
        InferOut.ok (raw.filter (fun label => !(serviceDisabled repoLabels label)))
          resp.totalTokens
    | _ => InferOut.errExpectedOneToolCall
  | _ => InferOut.errExpectedOneChoice

/-- One result of calling the completion provider. -/
inductive ProviderResult
  | success (resp : GoResponse)
  | apiError (status : Nat)
  | otherError

/-- The retry condition of `Service.Infer`:
`aiErr.HTTPStatusCode >= 500 || aiErr.HTTPStatusCode == 429`. -/
def transientStatus (s : Nat) : Bool := 500 ≤ s || s == 429

/-- The `retryAI` loop of `Service.Infer`. The provider's successive results
are a list (`none` when the loop is still retrying past its end);
`ctxWait k` models `ret.Wait(ctx)` before the `k`-th retry — `false` when the
caller's context is done, aborting the loop. -/
def serviceInferLoop (ctxWait : Nat → Bool) (repoLabels : List GoLabel) :
    Nat → List ProviderResult → Option InferOut
  | _, [] => none
  | _, ProviderResult.success resp :: _ => some (handleResponse repoLabels resp)
  | attempt, ProviderResult.apiError s :: rest =>
    if transientStatus s && ctxWait attempt then
      serviceInferLoop ctxWait repoLabels (attempt + 1) rest
    else some InferOut.errProvider
  | _, ProviderResult.otherError :: _ => some InferOut.errProvider

/-- Modelled from the spec: the exponential backoff of the external retry
dependency (`retry.New(time.Second, time.Second*10)`, not part of this
repository): the `k`-th wait of a **single** retrier sleeps
`min(1000·2ᵏ, 10000)` milliseconds. -/
def backoffDelay (k : Nat) : Nat := min (1000 * 2 ^ k) 10000

/-- The waits the source actually performs across `n` retries: the `retryAI`
label sits *above* `ret := retry.New(...)`, so every iteration constructs a
fresh retrier and sleeps that retrier's first delay. -/
def codeRetryDelays (n : Nat) : List Nat :=
  (List.range n).map (fun _ => backoffDelay 0)

/-- The waits the claim describes: one retrier across the whole loop, delays
growing exponentially from the 1s floor to the 10s cap. -/
def specRetryDelays (n : Nat) : List Nat := (List.range n).map backoffDelay

theorem mapM_jstr_strings : ∀ ls : List String,
    ((ls.map JVal.jstr).mapM (fun v =>
      match v with
      | JVal.jstr s => some s
      | _ => none)) = some ls
  | [] => rfl
  | s :: ls => by
      simp only [List.map_cons, List.mapM_cons, mapM_jstr_strings ls]
      rfl

/-- C5: For every successful completion response, a choice count other than
one, or a tool-call count other than one, makes `Service.Infer` return an
error for this invocation — without consuming any further provider result
(no retry) and without producing labels. -/
theorem c5_response_shape_fatal (ctxWait : Nat → Bool)
    (repoLabels : List GoLabel) (attempt : Nat) (resp : GoResponse)
    (rest : List ProviderResult)
    (h : resp.choices.length ≠ 1 ∨
      ∃ choice, resp.choices = [choice] ∧ choice.toolCalls.length ≠ 1) :
    ∃ e, serviceInferLoop ctxWait repoLabels attempt
        (ProviderResult.success resp :: rest) = some e ∧
      (e = InferOut.errExpectedOneChoice ∨ e = InferOut.errExpectedOneToolCall) ∧
      ∀ ls tk, e ≠ InferOut.ok ls tk := by
  obtain ⟨choices, tk⟩ := resp
  rcases choices with _ | ⟨choice, tl⟩
  · exact ⟨InferOut.errExpectedOneChoice, rfl, Or.inl rfl,
      by intro ls tk2; simp⟩
  · rcases tl with _ | ⟨choice2, tl2⟩
    · obtain ⟨tcs⟩ := choice
      rcases tcs with _ | ⟨args, tt⟩
      · exact ⟨InferOut.errExpectedOneToolCall, rfl, Or.inr rfl,
          by intro ls tk2; simp⟩
      · rcases tt with _ | ⟨args2, tt2⟩
        · exfalso
          rcases h with h | ⟨c, hc, hn⟩
          · exact h rfl
          · injection hc with h1 _
            rw [← h1] at hn
            exact hn rfl
        · exact ⟨InferOut.errExpectedOneToolCall, rfl, Or.inr rfl,
            by intro ls tk2; simp⟩
    · exact ⟨InferOut.errExpectedOneChoice, rfl, Or.inl rfl,
        by intro ls tk2; simp⟩

/-- Witness for C5: a response with zero choices, and one with one choice but
two tool calls, both end the invocation with a shape error. -/
theorem c5_response_shape_fatal_witness :
    (∃ e, serviceInferLoop (fun _ => true) [] 0
        [ProviderResult.success ⟨[], 5⟩] = some e ∧
      (e = InferOut.errExpectedOneChoice ∨ e = InferOut.errExpectedOneToolCall) ∧
      ∀ ls tk, e ≠ InferOut.ok ls tk) ∧
    (∃ e, serviceInferLoop (fun _ => true) [] 0
        [ProviderResult.success ⟨[⟨[none, none]⟩], 5⟩] = some e ∧
      (e = InferOut.errExpectedOneChoice ∨ e = InferOut.errExpectedOneToolCall) ∧
      ∀ ls tk, e ≠ InferOut.ok ls tk) :=
  ⟨c5_response_shape_fatal (fun _ => true) [] 0 ⟨[], 5⟩ []
      (Or.inl (by decide)),
    c5_response_shape_fatal (fun _ => true) [] 0 ⟨[⟨[none, none]⟩], 5⟩ []
      (Or.inr ⟨⟨[none, none]⟩, rfl, by decide⟩)⟩

/-- A concrete well-shaped provider response selecting the label `bug`. -/
def respOneBug : GoResponse :=
  ⟨[⟨[some (JVal.jobj [("labels", JVal.jarr [JVal.jstr "bug"])])]⟩], 42⟩

/-- C4 (evaluation at the failing input): The provider call is retried
exactly when the error carries HTTP status ≥ 500 or = 429 and the context is
still live — other errors, and exhausted contexts, end the call with an
error — but the retry delays do **not** grow: because `retry.New(1s, 10s)` is
re-executed on every `goto retryAI` iteration, the source sleeps the 1s floor
before every retry, while the claim's exponential backoff would sleep
1s then 2s. -/
theorem c4_retry_transient_only_constant_delay :
    serviceInferLoop (fun _ => true) [] 0
        [ProviderResult.apiError 503, ProviderResult.apiError 503,
          ProviderResult.success respOneBug] = some (InferOut.ok ["bug"] 42) ∧
    serviceInferLoop (fun _ => true) [] 0
        [ProviderResult.apiError 429, ProviderResult.success respOneBug] =
      some (InferOut.ok ["bug"] 42) ∧
    serviceInferLoop (fun _ => true) [] 0
        [ProviderResult.apiError 400, ProviderResult.success respOneBug] =
      some InferOut.errProvider ∧
    serviceInferLoop (fun _ => true) [] 0
        [ProviderResult.otherError, ProviderResult.success respOneBug] =
      some InferOut.errProvider ∧
    serviceInferLoop (fun _ => false) [] 0
        [ProviderResult.apiError 503, ProviderResult.success respOneBug] =
      some InferOut.errProvider ∧
    (∀ s, transientStatus s = true ↔ (500 ≤ s ∨ s = 429)) ∧
    codeRetryDelays 2 = [1000, 1000] ∧
    specRetryDelays 2 = [1000, 2000] ∧
    codeRetryDelays 2 ≠ specRetryDelays 2 := by
  refine ⟨by decide, by decide, by decide, by decide, by decide, ?_, by decide,
    by decide, by decide⟩
  intro s
  simp only [transientStatus, Bool.or_eq_true, decide_eq_true_eq, beq_iff_eq]

/-- C6 (amended): Both encodings of the labels field parse without error:
a JSON list of strings yields exactly those labels, but a single JSON string
is accepted and then discarded — the decoded string is never assigned — so
the string encoding always yields the empty label set; the two encodings
agree only when no labels are conveyed. -/
theorem c6_parse_both_encodings :
    (∀ ls : List String,
      parseToolCallLabels
        (some (JVal.jobj [("labels", JVal.jarr (ls.map JVal.jstr))])) =
        some ls) ∧
    (∀ s : String,
      parseToolCallLabels (some (JVal.jobj [("labels", JVal.jstr s)])) =
        some []) := by
  constructor
  · intro ls
    have h1 : unmarshalLabelsList
        (JVal.jobj [("labels", JVal.jarr (ls.map JVal.jstr))]) = some ls := by
      have h := mapM_jstr_strings ls
      simp only [unmarshalLabelsList, jlookup, List.find?, beq_self_eq_true,
        Option.map_some, decodeStringList]
      exact h
    simp only [parseToolCallLabels, h1]
  · intro s
    rfl

/-- C6 (counterexample): The same labels (`["bug"]`) encoded as a list
parse to `["bug"]`, but encoded as the string `"bug"` parse — without error —
to the empty selection: the two encodings do not yield the same label set. -/
theorem c6_counterexample :
    parseToolCallLabels
        (some (JVal.jobj [("labels", JVal.jarr [JVal.jstr "bug"])])) =
      some ["bug"] ∧
    parseToolCallLabels (some (JVal.jobj [("labels", JVal.jstr "bug")])) =
      some [] ∧
    (some ["bug"] : Option (List String)) ≠ some [] := by
  refine ⟨rfl, rfl, by decide⟩

/-! ### Similarity search (`search.go` and the legacy search file) -/

/-- A stored indexed issue, with the fields the search path reads (the other
columns of the store schema do not affect ranking). Embedding components are
modelled as exact rationals. -/
structure BqIssue where
  id : Int
  number : Int
  title : String
  embedding : List ℚ
deriving DecidableEq

/-- A `bqIssueWithSimilarity` value of `search.go`. -/
structure ScoredIssue where
  issue : BqIssue
  similarity : ℚ
deriving DecidableEq

/-- The scoring pass of `bruteSearch` in `search.go`: every stored issue
paired with `vek.CosineSimilarity(issue.Embedding, searchQuery)` — the
external similarity kernel is the parameter `sim` — in store order. -/
def scoreIssues (sim : List ℚ → List ℚ → ℚ) (issues : List BqIssue)
    (q : List ℚ) : List ScoredIssue :=
  issues.map (fun i => { issue := i, similarity := sim i.embedding q })

/-- The `sort.Slice(result, func(i, j) { .Similarity > .Similarity })` step:
`sort.Slice` is documented as **not stable**, so the model admits every output
it may legally produce — any permutation of the scored list that is
non-increasing by similarity (the comparator comes from the linear order on
scores, a strict weak ordering, so sortedness is guaranteed; tie order is
not). -/
def bruteSearchOutcome (sim : List ℚ → List ℚ → ℚ) (issues : List BqIssue)
    (q : List ℚ) (out : List ScoredIssue) : Prop :=
  out.Perm (scoreIssues sim issues q) ∧
  out.Pairwise (fun x y => y.similarity ≤ x.similarity)

/-- The truncation in `Search.search`:
`if len(similarIssues) > maxResults { similarIssues = similarIssues[:100] }`. -/
def truncateResults (out : List ScoredIssue) : List ScoredIssue :=
  if out.length > 100 then out.take 100 else out

/-- C8 (amended): Every result `sort.Slice` may produce is a permutation of
the scored issues ordered non-increasing by similarity and is truncated to at
most 100 entries (a prefix of the ranking); tie order among equal scores is
whatever the unstable sort produced, **not** guaranteed to be store order. -/
theorem c8_search_ranking (sim : List ℚ → List ℚ → ℚ) (issues : List BqIssue)
    (q : List ℚ) (out : List ScoredIssue)
    (h : bruteSearchOutcome sim issues q out) :
    (truncateResults out).length ≤ 100 ∧
    (truncateResults out).Pairwise (fun x y => y.similarity ≤ x.similarity) ∧
    truncateResults out <+: out ∧
    out.Perm (scoreIssues sim issues q) ∧
    out.length = issues.length := by
  obtain ⟨hperm, hsorted⟩ := h
  have hpre : truncateResults out <+: out := by
    rw [truncateResults]
    split
    · exact List.take_prefix 100 out
    · exact List.prefix_refl out
  refine ⟨?_, ?_, hpre, hperm, ?_⟩
  · rw [truncateResults]
    split
    · simp
    · omega
  · exact hsorted.sublist hpre.sublist
  · rw [hperm.length_eq, scoreIssues, List.length_map]

/-- Concrete stored issues for the search counterexamples. -/
def bqIssueOne : BqIssue := ⟨1, 11, "one", [1, 0]⟩

def bqIssueTwo : BqIssue := ⟨2, 22, "two", [0, 1]⟩

/-- Witness for C8 (amended) at a concrete outcome: the identity ordering of
a single scored issue. -/
theorem c8_search_ranking_witness :
    (truncateResults (scoreIssues (fun _ _ => 0) [bqIssueOne] [])).length ≤ 100 ∧
    (scoreIssues (fun _ _ => 0) [bqIssueOne] []).length = 1 :=
  ⟨(c8_search_ranking (fun _ _ => 0) [bqIssueOne] []
      (scoreIssues (fun _ _ => 0) [bqIssueOne] [])
      ⟨List.Perm.refl _, by decide⟩).1,
    (c8_search_ranking (fun _ _ => 0) [bqIssueOne] []
      (scoreIssues (fun _ _ => 0) [bqIssueOne] [])
      ⟨List.Perm.refl _, by decide⟩).2.2.2.2⟩

/-- C8 (counterexample): With two issues of equal score, the unstable sort
may legally emit them in reversed store order: the claim's "ties broken by
original store order (stable sort)" is not guaranteed by the code, which uses
`sort.Slice`, not `sort.SliceStable`. -/
theorem c8_counterexample :
    bruteSearchOutcome (fun _ _ => 0) [bqIssueOne, bqIssueTwo] []
      [⟨bqIssueTwo, 0⟩, ⟨bqIssueOne, 0⟩] ∧
    [⟨bqIssueTwo, 0⟩, ⟨bqIssueOne, 0⟩] ≠
      scoreIssues (fun _ _ => 0) [bqIssueOne, bqIssueTwo] [] := by
  refine ⟨⟨by decide, by decide⟩, by decide⟩

/-! ### The hand-rolled cosine similarity of the legacy search file (NaN) -/

/-- An IEEE-754 double idealized over exact rationals: finite values are exact
(rounding is not modelled; zero is unsigned), plus infinities and NaN with
IEEE propagation. The stored vectors are finite, so in this pipeline only the
final division and square roots can produce a non-finite value. -/
inductive FQ
  | num (q : ℚ)
  | posInf
  | negInf
  | nan
deriving DecidableEq

def fqMul : FQ → FQ → FQ
  | FQ.nan, _ => FQ.nan
  | _, FQ.nan => FQ.nan
  | FQ.num a, FQ.num b => FQ.num (a * b)
  | FQ.num a, FQ.posInf =>
    if a = 0 then FQ.nan else if 0 < a then FQ.posInf else FQ.negInf
  | FQ.num a, FQ.negInf =>
    if a = 0 then FQ.nan else if 0 < a then FQ.negInf else FQ.posInf
  | FQ.posInf, FQ.num b =>
    if b = 0 then FQ.nan else if 0 < b then FQ.posInf else FQ.negInf
  | FQ.negInf, FQ.num b =>
    if b = 0 then FQ.nan else if 0 < b then FQ.negInf else FQ.posInf
  | FQ.posInf, FQ.posInf => FQ.posInf
  | FQ.posInf, FQ.negInf => FQ.negInf
  | FQ.negInf, FQ.posInf => FQ.negInf
  | FQ.negInf, FQ.negInf => FQ.posInf

def fqDiv : FQ → FQ → FQ
  | FQ.nan, _ => FQ.nan
  | _, FQ.nan => FQ.nan
  | FQ.num a, FQ.num b =>
    if b = 0 then
      (if a = 0 then FQ.nan else if 0 < a then FQ.posInf else FQ.negInf)
    else FQ.num (a / b)
  | FQ.num _, FQ.posInf => FQ.num 0
  | FQ.num _, FQ.negInf => FQ.num 0
  | FQ.posInf, FQ.num b => if 0 ≤ b then FQ.posInf else FQ.negInf
  | FQ.negInf, FQ.num b => if 0 ≤ b then FQ.negInf else FQ.posInf
  | _, _ => FQ.nan

/-- A computable model of `math.Sqrt` on the rational carrier: exact on
perfect squares — in particular `ratSqrt 0 = 0`, the only value the claims
depend on — and a `Nat.sqrt`-rounded value otherwise. -/
def ratSqrt (q : ℚ) : ℚ :=
  ((Nat.sqrt (q.num.toNat * q.den) : ℚ)) / ((q.den : ℚ))

def fqSqrt : FQ → FQ
  | FQ.nan => FQ.nan
  | FQ.posInf => FQ.posInf
  | FQ.negInf => FQ.nan
  | FQ.num q => if q < 0 then FQ.nan else FQ.num (ratSqrt q)

/-- The accumulation loop of the legacy `cosineSimilarity`:
`for i := range a { dot += a[i]*b[i]; magA += a[i]*a[i]; magB += b[i]*b[i] }`.
Indexing `b` beyond its length panics (`none`). -/
def cosLoop : List ℚ → List ℚ → ℚ → ℚ → ℚ → Option (ℚ × ℚ × ℚ)
  | [], _, d, ma, mb => some (d, ma, mb)
  | _ :: _, [], _, _, _ => none
  | x :: xs, y :: ys, d, ma, mb =>
    cosLoop xs ys (d + x * y) (ma + x * x) (mb + y * y)

/-- Legacy `cosineSimilarity(a, b) = dot / (math.Sqrt(magA) * math.Sqrt(magB))`. -/
def cosineSimilarity (a b : List ℚ) : Option FQ :=
  (cosLoop a b 0 0 0).map (fun acc =>
    fqDiv (FQ.num acc.1) (fqMul (fqSqrt (FQ.num acc.2.1)) (fqSqrt (FQ.num acc.2.2))))

/-- The scoring pass of the legacy `bruteSearch`: every issue paired with its
similarity (NaN included), in store order; an index panic aborts the request
instead (`none`). -/
def scoreIssuesFQ (issues : List BqIssue) (q : List ℚ) :
    Option (List (BqIssue × FQ)) :=
  issues.mapM (fun i =>
    (cosineSimilarity i.embedding q).map (fun s => (i, s)))

/-- The legacy `bruteSearch` outcome: with NaN scores possible, the
`Similarity >` comparator is not a strict weak ordering, so `sort.Slice`
guarantees nothing beyond a permutation of the scored list. -/
def bruteSearchFQOutcome (issues : List BqIssue) (q : List ℚ)
    (out : List (BqIssue × FQ)) : Prop :=
  ∃ scored, scoreIssuesFQ issues q = some scored ∧ out.Perm scored

theorem cosLoop_zero_left : ∀ (a b : List ℚ) (d ma mb : ℚ) (r : ℚ × ℚ × ℚ),
    (∀ x ∈ a, x = 0) → cosLoop a b d ma mb = some r →
    r.1 = d ∧ r.2.1 = ma
  | [], _, d, ma, mb, r, _, h => by
      injection h with h
      rw [← h]
      exact ⟨rfl, rfl⟩
  | x :: xs, [], d, ma, mb, r, _, h => by
      exact absurd h (by simp [cosLoop])
  | x :: xs, y :: ys, d, ma, mb, r, hz, h => by
      have hx : x = 0 := hz x (List.mem_cons_self x xs)
      have hrec := cosLoop_zero_left xs ys (d + x * y) (ma + x * x) (mb + y * y) r
        (fun z hzin => hz z (List.mem_cons_of_mem x hzin)) h
      rw [hx] at hrec
      simpa using hrec

theorem cosLoop_zero_right : ∀ (a b : List ℚ) (d ma mb : ℚ) (r : ℚ × ℚ × ℚ),
    (∀ y ∈ b, y = 0) → cosLoop a b d ma mb = some r →
    r.1 = d ∧ r.2.2 = mb
  | [], _, d, ma, mb, r, _, h => by
      injection h with h
      rw [← h]
      exact ⟨rfl, rfl⟩
  | x :: xs, [], d, ma, mb, r, _, h => by
      exact absurd h (by simp [cosLoop])
  | x :: xs, y :: ys, d, ma, mb, r, hz, h => by
      have hy : y = 0 := hz y (List.mem_cons_self y ys)
      have hrec := cosLoop_zero_right xs ys (d + x * y) (ma + x * x) (mb + y * y) r
        (fun z hzin => hz z (List.mem_cons_of_mem y hzin)) h
      rw [hy] at hrec
      simpa using hrec

theorem ratSqrt_zero : ratSqrt 0 = 0 := by
  rw [ratSqrt, Rat.num_zero, Rat.den_zero]
  norm_num

theorem fqSqrt_zero : fqSqrt (FQ.num 0) = FQ.num 0 := by
  rw [fqSqrt]
  rw [if_neg (by norm_num)]
  rw [ratSqrt_zero]

theorem fqMul_zero_left (v : FQ) (h : ∃ q, v = FQ.num q) :
    fqMul (FQ.num 0) v = FQ.num 0 := by
  obtain ⟨q, rfl⟩ := h
  simp [fqMul]

theorem fqMul_zero_right (v : FQ) (h : ∃ q, v = FQ.num q) :
    fqMul v (FQ.num 0) = FQ.num 0 := by
  obtain ⟨q, rfl⟩ := h
  simp [fqMul]

theorem fqDiv_zero_zero : fqDiv (FQ.num 0) (FQ.num 0) = FQ.nan := by
  simp [fqDiv]

theorem fqDiv_num_nan (q : ℚ) : fqDiv (FQ.num q) FQ.nan = FQ.nan := rfl

/-- Zero magnitude on either side forces a NaN similarity. -/
theorem cosineSimilarity_zero_mag_nan (a b : List ℚ)
    (hz : (∀ x ∈ a, x = 0) ∨ (∀ y ∈ b, y = 0)) (fq : FQ)
    (h : cosineSimilarity a b = some fq) : fq = FQ.nan := by
  rw [cosineSimilarity] at h
  rcases hl : cosLoop a b 0 0 0 with _ | ⟨⟨d, ma, mb⟩⟩
  · rw [hl] at h
    exact absurd h (by simp)
  · rw [hl] at h
    simp only [Option.map_some', Option.some.injEq] at h
    rcases hz with hza | hzb
    · obtain ⟨hd, hma⟩ := cosLoop_zero_left a b 0 0 0 (d, ma, mb) hza hl
      simp only at hd hma
      rw [hd, hma] at h
      rw [fqSqrt_zero] at h
      rcases hmb : fqSqrt (FQ.num mb) with q | _ | _ | _
      · rw [hmb] at h
        rw [fqMul_zero_left _ ⟨q, rfl⟩] at h
        rw [fqDiv_zero_zero] at h
        exact h.symm
      · rw [hmb] at h
        simp only [fqMul, fqDiv, if_pos rfl] at h
        exact h.symm
      · rw [hmb] at h
        simp only [fqMul, fqDiv, if_pos rfl] at h
        exact h.symm
      · rw [hmb] at h
        simp only [fqMul, fqDiv] at h
        exact h.symm
    · obtain ⟨hd, hmb⟩ := cosLoop_zero_right a b 0 0 0 (d, ma, mb) hzb hl
      simp only at hd hmb
      rw [hd, hmb] at h
      rw [fqSqrt_zero] at h
      rcases hma : fqSqrt (FQ.num ma) with q | _ | _ | _
      · rw [hma] at h
        rw [fqMul_zero_right _ ⟨q, rfl⟩] at h
        rw [fqDiv_zero_zero] at h
        exact h.symm
      · rw [hma] at h
        simp only [fqMul, fqDiv, if_pos rfl] at h
        exact h.symm
      · rw [hma] at h
        simp only [fqMul, fqDiv, if_pos rfl] at h
        exact h.symm
      · rw [hma] at h
        simp only [fqMul, fqDiv] at h
        exact h.symm

theorem mapM_option_spec {α β : Type _} (f : α → Option β) :
    ∀ (l : List α) (r : List β), l.mapM f = some r →
      r.length = l.length ∧ ∀ a ∈ l, ∃ b, f a = some b ∧ b ∈ r
  | [], r, h => by
      simp only [List.mapM_nil, pure, Option.some.injEq] at h
      rw [← h]
      exact ⟨rfl, by intro a ha; exact absurd ha (List.not_mem_nil a)⟩
  | a :: l, r, h => by
      rw [List.mapM_cons] at h
      rcases hfa : f a with _ | b
      · rw [hfa] at h
        simp only [Bind.bind, Option.none_bind] at h
        exact absurd h (by simp)
      · rw [hfa] at h
        rcases hml : l.mapM f with _ | bs
        · rw [hml] at h
          simp only [Bind.bind, Option.some_bind, Option.none_bind] at h
          exact absurd h (by simp)
        · rw [hml] at h
          simp only [Bind.bind, Option.some_bind, pure, Option.some.injEq] at h
          obtain ⟨hlen, hmem⟩ := mapM_option_spec f l bs hml
          rw [← h]
          constructor
          · simp [hlen]
          · intro a2 ha2
            rcases List.mem_cons.mp ha2 with rfl | ha2l
            · exact ⟨b, hfa, List.mem_cons_self b bs⟩
            · obtain ⟨b2, hb2, hb2mem⟩ := hmem a2 ha2l
              exact ⟨b2, hb2, List.mem_cons_of_mem b hb2mem⟩

/-- C10: If a stored issue's embedding, or the query, has zero magnitude —
all components zero, or the vector empty — the hand-rolled cosine similarity
divides zero by zero and yields NaN, and the legacy `bruteSearch` applies no
guard: every issue, NaN-scored ones included, appears in the ranked outcome,
which has one entry per stored issue (nothing rejected, no error reported). -/
theorem c10_zero_magnitude_nan (issues : List BqIssue) (q : List ℚ)
    (out : List (BqIssue × FQ)) (h : bruteSearchFQOutcome issues q out) :
    out.length = issues.length ∧
    ∀ i ∈ issues, ((∀ x ∈ i.embedding, x = 0) ∨ (∀ y ∈ q, y = 0)) →
      cosineSimilarity i.embedding q = some FQ.nan ∧ (i, FQ.nan) ∈ out := by
  obtain ⟨scored, hs, hperm⟩ := h
  obtain ⟨hlen, hmem⟩ := mapM_option_spec _ issues scored hs
  constructor
  · rw [hperm.length_eq, hlen]
  · intro i hi hz
    obtain ⟨p, hp, hpmem⟩ := hmem i hi
    rcases hcs : cosineSimilarity i.embedding q with _ | fq
    · rw [hcs] at hp
      exact absurd hp (by simp)
    · rw [hcs] at hp
      simp only [Option.map_some', Option.some.injEq] at hp
      have hnan : fq = FQ.nan := cosineSimilarity_zero_mag_nan i.embedding q hz fq hcs
      rw [hnan] at hp
      refine ⟨by rw [hnan], ?_⟩
      rw [hperm.mem_iff, hp]
      exact hpmem

/-- A stored issue with an all-zero embedding. -/
def bqZero : BqIssue := ⟨7, 77, "zero", [0, 0]⟩

/-- Witness for C10: against the query `[1, 1]`, the all-zero issue scores
NaN and is ranked, not rejected. -/
theorem c10_zero_magnitude_nan_witness :
    cosineSimilarity bqZero.embedding [1, 1] = some FQ.nan ∧
    (bqZero, FQ.nan) ∈ [(bqZero, FQ.nan)] := by
  have hscore : scoreIssuesFQ [bqZero] [1, 1] = some [(bqZero, FQ.nan)] := by
    rw [scoreIssuesFQ, List.mapM_cons, List.mapM_nil]
    rw [bqZero]
    norm_num [cosineSimilarity, cosLoop, fqSqrt, fqMul, fqDiv, fqSqrt_zero,
      ratSqrt_zero, Bind.bind, pure]
  have h := c10_zero_magnitude_nan [bqZero] [1, 1] [(bqZero, FQ.nan)]
    ⟨[(bqZero, FQ.nan)], hscore, List.Perm.refl _⟩
  exact h.2 bqZero (by decide) (Or.inl (by decide))
